import Mathlib

/-!
Verification of the Midnight_Hunt challenge orchestrator
(`cli_hunt/python_orchestrator/main.py`).

The persisted store is a JSON document mapping wallet addresses to an
entry holding a registration receipt and a challenge queue.  We embed the
store as an association list (preserving dict insertion order, which the
solve pass iterates), challenge records as a structure over the JSON
fields the code reads, and each of the three operations (`init_db`,
`fetch_challenges`, `solve_challenges`) as a pure function of the store
plus an oracle describing the outcomes of the external effects (file
contents, HTTP responses, solver results, the clock).  Exceptions that
the Python code does not catch are embedded as `Except.error`; an
operation whose pass raises never reaches its final `save_db`, so the
persisted store is left as it was.
-/

/-- One challenge record, with the JSON fields `main.py` reads.
`latestSubmission` is `Option` because the solve pass reads that key
outside any handler (a missing key raises there); the remaining scalar
fields are only ever passed through, inside handlers, so they stay plain
strings.  `solvedAt`, `salt` and `hash` are absent until a solve
succeeds. -/
structure ChallengeRecord where
  challengeId : String
  challengeNumber : String
  campaignDay : String
  difficulty : String
  noPreMine : String
  noPreMineHour : String
  availableAt : String
  latestSubmission : Option String
  status : String
  solvedAt : Option String
  salt : Option String
  hash : Option String
deriving DecidableEq, Repr

/-- Per-address entry of the store: `registration_receipt` is opaque to
the orchestrator, `challenge_queue` is the list of records. -/
structure AddressEntry where
  registration_receipt : String
  challenge_queue : List ChallengeRecord
deriving DecidableEq, Repr

/-- The store: a Python dict from address to entry, embedded as an
association list in insertion order. -/
abbrev Db : Type := List (String × AddressEntry)

/-- `address in db` / `db[address]` read access. -/
def dbLookup (db : Db) (a : String) : Option AddressEntry :=
  (List.find? (fun p => p.1 == a) db).map Prod.snd

/-- `db[address] = entry` when the key is already present: the value is
replaced in place, key order unchanged. -/
def dbUpdate (db : Db) (a : String) (e : AddressEntry) : Db :=
  List.map (fun p => if p.1 == a then (a, e) else p) db

/-- `list(db.keys())`. -/
def dbKeys (db : Db) : List String :=
  List.map Prod.fst db

/-- The sort key used by both `init_db` and `fetch_challenges`:
`challenge_queue.sort(key=lambda c: c["challengeId"])`. -/
def recLe (a b : ChallengeRecord) : Prop := a.challengeId ≤ b.challengeId

instance : DecidableRel recLe :=
  fun a b => inferInstanceAs (Decidable (a.challengeId ≤ b.challengeId))

instance : IsTotal ChallengeRecord recLe := ⟨fun a b => le_total a.challengeId b.challengeId⟩

instance : IsTrans ChallengeRecord recLe := ⟨fun _ _ _ hab hbc => le_trans hab hbc⟩

/-- `queue.sort(key=lambda c: c["challengeId"])`, as a stable sort. -/
def sortQueue (q : List ChallengeRecord) : List ChallengeRecord :=
  List.insertionSort recLe q

/-- One input file of `init_db`, as the code observes it: missing on
disk, unreadable (JSON decode error or any other exception while
reading), or parsed with an optional extracted wallet address, the
receipt payload, and a challenge queue (defaulted to `[]`). -/
inductive ReceiptFile where
  | missing : ReceiptFile
  | malformed : ReceiptFile
  | parsed (walletAddress : Option String) (registration_receipt : String)
      (challenge_queue : List ChallengeRecord) : ReceiptFile

/-- The body of `init_db`'s loop for one input file (`main.py` lines
35-71): skip missing, unreadable or address-less files; create a new
entry verbatim for an unknown address; for a known address append the
incoming records whose `challengeId` is not already present and re-sort
only when at least one was appended. -/
def init_one (db : Db) (f : ReceiptFile) : Db :=
  match f with
  | .missing => db
  | .malformed => db
  | .parsed none _ _ => db
  | .parsed (some address) rr q =>
    match dbLookup db address with
    | none => db ++ [(address, ⟨rr, q⟩)]
    | some entry =>
      let existing_queue := entry.challenge_queue
      let existing_ids := List.map (fun c => c.challengeId) existing_queue
      let new_challenges := q.filter fun c => !(existing_ids.contains c.challengeId)
      if new_challenges.length > 0 then
        dbUpdate db address
          ⟨entry.registration_receipt, sortQueue (existing_queue ++ new_challenges)⟩
      else db

/-- `init_db`: fold the per-file merge over the input list (the single
terminal `save_db` persists the result). -/
def init_db (db : Db) (files : List ReceiptFile) : Db :=
  files.foldl init_one db

/-- Fields of a well-shaped issuance response (`response.json()["challenge"]`). -/
structure ChallengeData where
  challenge_id : String
  challenge_number : String
  day : String
  difficulty : String
  no_pre_mine : String
  no_pre_mine_hour : String
  latest_submission : String
  issued_at : String
deriving DecidableEq

/-- The `new_challenge` dict built in `fetch_challenges` (lines 86-96):
status starts as `available`, no `solvedAt`/`salt`/`hash`. -/
def mkRecord (c : ChallengeData) : ChallengeRecord :=
  { challengeId := c.challenge_id
    challengeNumber := c.challenge_number
    campaignDay := c.day
    difficulty := c.difficulty
    noPreMine := c.no_pre_mine
    noPreMineHour := c.no_pre_mine_hour
    availableAt := c.issued_at
    latestSubmission := some c.latest_submission
    status := "available"
    solvedAt := none
    salt := none
    hash := none }

/-- Outcome of one GET of the issuance endpoint, as the code
distinguishes them: a `RequestException` (transport error, non-success
status via `raise_for_status`, or a response-body JSON decode error) is
caught by the per-address handler; a response missing the expected keys
raises `KeyError`, which no handler catches; otherwise the parsed
challenge data. -/
inductive FetchResponse where
  | transportError : FetchResponse
  | badShape : FetchResponse
  | ok (c : ChallengeData) : FetchResponse

/-- One iteration of the `fetch_challenges` loop (lines 80-119). -/
def fetch_one (db : Db) (address : String) (resp : FetchResponse) : Except Unit Db :=
  match resp with
  | .transportError => .ok db
  | .badShape => .error ()
  | .ok c =>
    let new_challenge := mkRecord c
    match dbLookup db address with
    | some entry =>
      let challenge_queue := entry.challenge_queue
      if challenge_queue.any fun r => r.challengeId == new_challenge.challengeId then
        .ok db
      else
        .ok (dbUpdate db address
          ⟨entry.registration_receipt, sortQueue (challenge_queue ++ [new_challenge])⟩)
    | none => .ok db

/-- The fetch loop over the given addresses paired with the response
each iteration receives; an uncaught exception aborts the loop. -/
def fetch_pass (db : Db) : List (String × FetchResponse) → Except Unit Db
  | [] => .ok db
  | (a, resp) :: rest =>
    match fetch_one db a resp with
    | .error e => .error e
    | .ok db' => fetch_pass db' rest

/-- `fetch_challenges` as observed on the persisted store: if the pass
raises, the final `save_db` is never reached, so the store keeps its
prior contents. -/
def fetch_challenges (db : Db) (items : List (String × FetchResponse)) : Db :=
  match fetch_pass db items with
  | .ok d => d
  | .error _ => db

/-- Outcome of one run of the external solver subprocess. -/
inductive SolverOutcome where
  | success (nonce : String) : SolverOutcome
  | failed : SolverOutcome

/-- Outcome of one POST to the submission endpoint: `transportFailure`
covers a `RequestException`, including the one `raise_for_status` turns a
non-success status into; `accepted` carries the optional `hash` of the
response body (`none` when absent or when the body fails to decode). -/
inductive SubmitOutcome where
  | accepted (h : Option String) : SubmitOutcome
  | transportFailure : SubmitOutcome

/-- Oracle for the effects of one solve pass: `parseTs` is
`datetime.fromisoformat` after the `Z` replacement (`none` = raises),
`now` the pass's clock reading, `nowStr` the formatted timestamp written
to `solvedAt`, `solver` the subprocess and `submit` the POST keyed by
address, challenge id and nonce. -/
structure SolveEnv where
  parseTs : String → Option Int
  now : Int
  nowStr : String
  solver : String → ChallengeRecord → SolverOutcome
  submit : String → String → String → SubmitOutcome

/-- Which external calls one record's processing performed. -/
structure SolveLog where
  solverCalled : Bool
  submitCalled : Bool
deriving DecidableEq, Repr

/-- The body of `solve_challenges` for one record (lines 130-192).  A
record not `available` is skipped.  Reading and parsing
`latestSubmission` happens before the `try` block, so a missing key or an
unparseable timestamp raises out of the pass (`Except.error`).  An
expired record is marked and skipped before any solver call.  Inside the
`try`, a solver failure or a submission failure leaves the record
untouched; on submission success the record is marked `solved` and the
nonce, timestamp and optional response hash are written. -/
def solve_record (env : SolveEnv) (address : String) (r : ChallengeRecord) :
    Except Unit (ChallengeRecord × SolveLog) :=
  if r.status == "available" then
    match r.latestSubmission with
    | none => .error ()
    | some ts =>
      match env.parseTs ts with
      | none => .error ()
      | some t =>
        if env.now > t then
          .ok ({ r with status := "expired" }, ⟨false, false⟩)
        else
          match env.solver address r with
          | .failed => .ok (r, ⟨true, false⟩)
          | .success nonce =>
            match env.submit address r.challengeId nonce with
            | .transportFailure => .ok (r, ⟨true, true⟩)
            | .accepted h =>
              .ok ({ r with
                      status := "solved"
                      solvedAt := some env.nowStr
                      salt := some nonce
                      hash := match h with | some v => some v | none => r.hash },
                   ⟨true, true⟩)
  else
    .ok (r, ⟨false, false⟩)

/-- List traversal in `Except`, stopping at the first raised error. -/
def exMapM (f : α → Except Unit β) : List α → Except Unit (List β)
  | [] => .ok []
  | x :: xs =>
    match f x with
    | .error e => .error e
    | .ok y =>
      match exMapM f xs with
      | .error e => .error e
      | .ok ys => .ok (y :: ys)

/-- The record transformation of the solve pass, dropping the call log. -/
def solveRecOnly (env : SolveEnv) (a : String) (r : ChallengeRecord) :
    Except Unit ChallengeRecord :=
  match solve_record env a r with
  | .error e => .error e
  | .ok rl => .ok rl.1

/-- The solve pass over one address: every record of the queue is
processed in place. -/
def solve_entry (env : SolveEnv) (p : String × AddressEntry) :
    Except Unit (String × AddressEntry) :=
  match exMapM (solveRecOnly env p.1) p.2.challenge_queue with
  | .error e => .error e
  | .ok q' => .ok (p.1, ⟨p.2.registration_receipt, q'⟩)

/-- The solve pass over all addresses of the store. -/
def solve_pass (env : SolveEnv) (db : Db) : Except Unit Db :=
  exMapM (solve_entry env) db

/-- `solve_challenges` as observed on the persisted store: if the pass
raises, `save_db` is never reached and the store keeps its prior
contents. -/
def solve_challenges (env : SolveEnv) (db : Db) : Db :=
  match solve_pass env db with
  | .ok d => d
  | .error _ => db

/-- One run of `json.dump(db, f)`: the serializer emits a stream of
chunks; `failAt = some k` means it raised after writing the first `k`
chunks (for instance on a value JSON cannot encode), `failAt = none`
means it completed. -/
structure Serialization where
  chunks : List String
  failAt : Option Nat
deriving DecidableEq

/-- `save_db` (lines 14-16): `open(DB_FILE, "w")` truncates the
document at once, then `json.dump` streams chunks into it until it
completes or raises, so the resulting document holds exactly the chunks
emitted before any failure.  `old` is the previously persisted
document's content. -/
def save_db (_old : List String) (s : Serialization) : List String :=
  match s.failAt with
  | none => s.chunks
  | some k => s.chunks.take k

/-- Modelled from the spec: the write-new-then-replace discipline §4.1
demands of `save(store)` — serialize into a fresh document and replace
the persisted one only on completion, leaving the previous document
intact if serialization fails midway.  The source's `save_db` holds no
such code; this definition exists only to be compared against it. -/
def save_db_spec (old : List String) (s : Serialization) : List String :=
  match s.failAt with
  | none => s.chunks
  | some _ => old

/-- The persisted document as `load_db` sees it: absent on disk, present
but undecodable, or a decoded store. -/
inductive PersistedDoc where
  | absent : PersistedDoc
  | undecodable : PersistedDoc
  | decoded (db : Db) : PersistedDoc

/-- `load_db` (lines 19-29): an absent or undecodable document yields
the empty store (with a warning, not a failure). -/
def load_db : PersistedDoc → Db
  | .absent => []
  | .undecodable => []
  | .decoded db => db

/-- Result of one CLI command: rejected at the uninitialized-store
guard before doing anything, or completed with the store it saved. -/
inductive CmdResult where
  | rejected : CmdResult
  | completed (db : Db) : CmdResult
deriving DecidableEq

/-- The `fetch` command of `main` (lines 218-224): load, refuse an empty
store, otherwise run the fetch pass over `list(db.keys())`, zipped here
with the response oracle, one response per iteration. -/
def main_fetch (doc : PersistedDoc) (responses : List FetchResponse) : CmdResult :=
  let db := load_db doc
  if db.isEmpty then .rejected
  else .completed (fetch_challenges db ((dbKeys db).zip responses))

/-- The `solve` command of `main` (lines 225-230): load, refuse an empty
store, otherwise run the solve pass. -/
def main_solve (doc : PersistedDoc) (env : SolveEnv) : CmdResult :=
  let db := load_db doc
  if db.isEmpty then .rejected
  else .completed (solve_challenges env db)

/-- One invocation of the orchestrator, as a store transformer. -/
inductive Op where
  | initOp (f : ReceiptFile) : Op
  | fetchOp (items : List (String × FetchResponse)) : Op
  | solveOp (env : SolveEnv) : Op

/-- Apply one operation to the persisted store. -/
def applyOp (db : Db) : Op → Db
  | .initOp f => init_one db f
  | .fetchOp items => fetch_challenges db items
  | .solveOp env => solve_challenges env db

/-- Strict ascending order of two records' ids; a queue pairwise in this
relation is sorted ascending by `challengeId` with no duplicate ids. -/
def recLt (a b : ChallengeRecord) : Prop := a.challengeId < b.challengeId

instance : DecidableRel recLt :=
  fun a b => inferInstanceAs (Decidable (a.challengeId < b.challengeId))

/-- The spec's sort invariant: every address's queue is sorted ascending
by `challengeId` and holds no two records with the same id. -/
def sortInv (db : Db) : Prop :=
  ∀ a e, dbLookup db a = some e → e.challenge_queue.Pairwise recLt

/-- The spec's forward-only status discipline, relating a store to a
later one: every record present before is either still present verbatim,
or was `available` and some record with its id is now `expired` or
`solved`. -/
def statusForward (db db' : Db) : Prop :=
  ∀ a e, dbLookup db a = some e →
    ∃ e', dbLookup db' a = some e' ∧
      ∀ r ∈ e.challenge_queue,
        r ∈ e'.challenge_queue ∨
          (r.status = "available" ∧
            ∃ r' ∈ e'.challenge_queue, r'.challengeId = r.challengeId ∧
              (r'.status = "expired" ∨ r'.status = "solved"))

instance {ε α : Type} [DecidableEq ε] [DecidableEq α] : DecidableEq (Except ε α) := by
  intro x y
  cases x <;> cases y
  case error.error a b => exact decidable_of_iff (a = b) (by simp)
  case error.ok a b => exact isFalse (by simp)
  case ok.error a b => exact isFalse (by simp)
  case ok.ok a b => exact decidable_of_iff (a = b) (by simp)

/-- A concrete available record with id `c1`, used by witnesses. -/
def recC1 : ChallengeRecord :=
  { challengeId := "c1", challengeNumber := "1", campaignDay := "1", difficulty := "d"
    noPreMine := "false", noPreMineHour := "0", availableAt := "t0"
    latestSubmission := some "t1", status := "available"
    solvedAt := none, salt := none, hash := none }

/-- A concrete available record with id `c2`, used by witnesses. -/
def recC2 : ChallengeRecord :=
  { recC1 with challengeId := "c2" }

/-- A concrete available record whose `latestSubmission` no parser
accepts, used by the C5 counterexample. -/
def recBadTs : ChallengeRecord :=
  { recC1 with challengeId := "c0", latestSubmission := some "garbage" }

/-- An oracle under which every deadline parses to instant 10, the
clock reads 5 (nothing expired), the solver always finds nonce `n1` and
every submission fails in transport. -/
def envSubmitFail : SolveEnv :=
  { parseTs := fun _ => some 10, now := 5, nowStr := "T"
    solver := fun _ _ => .success "n1", submit := fun _ _ _ => .transportFailure }

/-- An oracle whose clock reads 20, past every deadline (which all
parse to instant 10); solver and submission would succeed if consulted. -/
def envPast : SolveEnv :=
  { parseTs := fun _ => some 10, now := 20, nowStr := "T"
    solver := fun _ _ => .success "n1", submit := fun _ _ _ => .accepted none }

/-- An oracle that refuses to parse any timestamp, as
`datetime.fromisoformat` does on a malformed string. -/
def envNoParse : SolveEnv :=
  { parseTs := fun _ => none, now := 5, nowStr := "T"
    solver := fun _ _ => .success "n1", submit := fun _ _ _ => .accepted none }

/-- An oracle that parses the timestamp `t1` to instant 10 and rejects
every other string; the clock reads 20, so records with deadline `t1`
are expired.  Solver and submission would succeed if consulted. -/
def envMixedParse : SolveEnv :=
  { parseTs := fun s => if s == "t1" then some 10 else none, now := 20, nowStr := "T"
    solver := fun _ _ => .success "n1", submit := fun _ _ _ => .accepted none }

/-- A concrete issuance response carrying challenge id `c2`. -/
def cd2 : ChallengeData :=
  { challenge_id := "c2", challenge_number := "2", day := "1", difficulty := "d"
    no_pre_mine := "false", no_pre_mine_hour := "0"
    latest_submission := "t1", issued_at := "t0" }

/-- A store with one address whose queue holds the single record `c1`. -/
def dbOne : Db := [("addr1", ⟨"rr", [recC1]⟩)]

/-- A store with one address whose queue holds `c1` then `c2`. -/
def dbTwoRecs : Db := [("addr1", ⟨"rr", [recC1, recC2]⟩)]

/-- A store whose first record has an unparseable deadline and whose
second is an ordinary available record with deadline `t1`. -/
def dbBadTs : Db := [("addr1", ⟨"rr", [recBadTs, recC1]⟩)]

/-- Precondition of the amended C5: every available record carries a
`latestSubmission` string the pass's parser accepts, so the only
uncaught exception source of the solve pass is absent. -/
def tsParseable (env : SolveEnv) (db : Db) : Prop :=
  ∀ p ∈ db, ∀ r ∈ p.2.challenge_queue, r.status = "available" →
    ∃ s, r.latestSubmission = some s ∧ (env.parseTs s).isSome


/-! ### Basic lemmas about the store embedding -/

theorem dbLookup_cons (b : String) (e : AddressEntry) (db : Db) (a : String) :
    dbLookup ((b, e) :: db) a = if b == a then some e else dbLookup db a := by
  by_cases h : b == a <;> simp [dbLookup, List.find?, h]

theorem dbLookup_append_of_some {db : Db} {a : String} {e : AddressEntry}
    (h : dbLookup db a = some e) (l : Db) : dbLookup (db ++ l) a = some e := by
  induction db with
  | nil => simp [dbLookup] at h
  | cons p db ih =>
    obtain ⟨b, e'⟩ := p
    rw [dbLookup_cons] at h
    rw [List.cons_append, dbLookup_cons]
    by_cases hb : b == a
    · simpa [hb] using h
    · simp only [hb, if_false] at h ⊢
      exact ih h

theorem dbLookup_append_of_none {db : Db} {a : String}
    (h : dbLookup db a = none) (l : Db) : dbLookup (db ++ l) a = dbLookup l a := by
  induction db with
  | nil => simp
  | cons p db ih =>
    obtain ⟨b, e'⟩ := p
    rw [dbLookup_cons] at h
    rw [List.cons_append, dbLookup_cons]
    by_cases hb : b == a
    · simp [hb] at h
    · simp only [hb, if_false] at h ⊢
      exact ih h

theorem dbUpdate_cons (b : String) (eb : AddressEntry) (db : Db) (a : String)
    (e' : AddressEntry) :
    dbUpdate ((b, eb) :: db) a e' =
      (if b == a then (a, e') else (b, eb)) :: dbUpdate db a e' := rfl

theorem dbLookup_update_self {db : Db} {a : String}
    (h : (dbLookup db a).isSome) (e' : AddressEntry) :
    dbLookup (dbUpdate db a e') a = some e' := by
  induction db with
  | nil => simp [dbLookup] at h
  | cons p db ih =>
    obtain ⟨b, eb⟩ := p
    rw [dbLookup_cons] at h
    rw [dbUpdate_cons]
    by_cases hb : b == a
    · rw [if_pos hb, dbLookup_cons]
      simp
    · rw [if_neg hb, dbLookup_cons, if_neg hb]
      rw [if_neg hb] at h
      exact ih h

theorem dbLookup_update_ne {db : Db} {a a' : String} (e' : AddressEntry)
    (h : a' ≠ a) : dbLookup (dbUpdate db a e') a' = dbLookup db a' := by
  induction db with
  | nil => simp [dbUpdate, dbLookup]
  | cons p db ih =>
    obtain ⟨b, eb⟩ := p
    by_cases hba : b = a
    · subst hba
      have h1 : (b == a') = false := by
        rw [beq_eq_false_iff_ne]
        exact fun hh => h hh.symm
      simp [dbUpdate_cons, dbLookup_cons, h1, ih]
    · have hb : (b == a) = false := by
        rw [beq_eq_false_iff_ne]
        exact hba
      simp [dbUpdate_cons, dbLookup_cons, hb, ih]

theorem dbKeys_update (db : Db) (a : String) (e' : AddressEntry) :
    dbKeys (dbUpdate db a e') = dbKeys db := by
  induction db with
  | nil => rfl
  | cons p db ih =>
    obtain ⟨b, eb⟩ := p
    simp only [dbKeys] at ih
    by_cases hba : b = a
    · subst hba
      simp [dbKeys, dbUpdate_cons, ih]
    · have hb : (b == a) = false := by
        rw [beq_eq_false_iff_ne]
        exact hba
      simp [dbKeys, dbUpdate_cons, hb, ih]

theorem sortQueue_perm (q : List ChallengeRecord) : List.Perm (sortQueue q) q :=
  List.perm_insertionSort recLe q

theorem sortQueue_sorted (q : List ChallengeRecord) : List.Sorted recLe (sortQueue q) :=
  List.sorted_insertionSort recLe q

/-! ### C2, C3: the per-record solve state machine -/

/-- C2: for an available, unexpired record, if the external solver
succeeds but the submission call fails (transport error or non-success
status), the record is returned exactly as it was — status still
`available`, `salt`, `solvedAt` and `hash` untouched — so a later solve
pass may retry it; both external calls were made. -/
theorem solve_retry_safety (env : SolveEnv) (address : String) (r : ChallengeRecord)
    (s : String) (t : Int) (nonce : String)
    (hav : r.status = "available")
    (hts : r.latestSubmission = some s)
    (hpt : env.parseTs s = some t)
    (hnow : ¬ env.now > t)
    (hsol : env.solver address r = .success nonce)
    (hsub : env.submit address r.challengeId nonce = .transportFailure) :
    solve_record env address r = .ok (r, ⟨true, true⟩) := by
  simp [solve_record, hav, hts, hpt, hnow, hsol, hsub]

/-- Witness for C2 at a concrete record and oracle. -/
theorem solve_retry_safety_witness :
    recC1.status = "available" ∧
      solve_record envSubmitFail "addr1" recC1 = .ok (recC1, ⟨true, true⟩) :=
  ⟨rfl, solve_retry_safety envSubmitFail "addr1" recC1 "t1" 10 "n1" rfl rfl rfl
    (by decide) rfl rfl⟩

/-- C3: an available record whose parsed `latestSubmission` is strictly
before the pass's `now` is marked `expired` with no other field changed
(in particular no `solvedAt` and no `salt`), and neither the solver nor
the submission endpoint is invoked for it. -/
theorem expiry_precedence (env : SolveEnv) (address : String) (r : ChallengeRecord)
    (s : String) (t : Int)
    (hav : r.status = "available")
    (hts : r.latestSubmission = some s)
    (hpt : env.parseTs s = some t)
    (hnow : env.now > t) :
    solve_record env address r = .ok ({ r with status := "expired" }, ⟨false, false⟩) := by
  simp [solve_record, hav, hts, hpt, hnow]

/-- Witness for C3 at a concrete record and oracle. -/
theorem expiry_precedence_witness :
    recC1.status = "available" ∧ envPast.now > 10 ∧
      solve_record envPast "addr1" recC1 =
        .ok ({ recC1 with status := "expired" }, ⟨false, false⟩) :=
  ⟨rfl, by decide, expiry_precedence envPast "addr1" recC1 "t1" 10 rfl rfl rfl (by decide)⟩

/-! ### C4: the persistence discipline of save_db -/

/-- C4 counterexample: with the previously persisted document
`["olddoc"]` and a serialization that raises after emitting one of its
two chunks, `save_db` leaves the document holding just that first chunk
— a truncated store — not the previous document, contradicting the
claimed write-new-then-replace discipline (embodied by `save_db_spec`). -/
theorem save_truncation_counterexample :
    save_db ["olddoc"] ⟨["a", "b"], some 1⟩ = ["a"] ∧
      ¬ save_db ["olddoc"] ⟨["a", "b"], some 1⟩ = ["olddoc"] ∧
      ¬ save_db ["olddoc"] ⟨["a", "b"], some 1⟩ =
          save_db_spec ["olddoc"] ⟨["a", "b"], some 1⟩ := by
  refine ⟨rfl, ?_, ?_⟩ <;> decide

/-- C4 amended: `save_db` writes the serialization directly over the
persisted document (`open(DB_FILE, "w")` truncates first).  When
serialization completes the document is the full serialization; when it
fails after `k` chunks the document holds exactly those `k` chunks —
independent of what was persisted before, which is therefore not left
intact. -/
theorem save_overwrites_in_place (old : List String) (s : Serialization) :
    (s.failAt = none → save_db old s = s.chunks) ∧
    (∀ k, s.failAt = some k →
      save_db old s = s.chunks.take k ∧ ∀ old', save_db old' s = save_db old s) := by
  refine ⟨fun h => by simp [save_db, h], fun k h => ⟨by simp [save_db, h], fun old' => by simp [save_db, h]⟩⟩

/-- Witness for the amended C4 at a concrete document and serialization. -/
theorem save_overwrites_in_place_witness :
    (Serialization.mk ["a", "b"] (some 1)).failAt = some 1 ∧
      save_db ["x"] ⟨["a", "b"], some 1⟩ = ["a"] ∧
      save_db ["y"] ⟨["a", "b"], some 1⟩ = save_db ["x"] ⟨["a", "b"], some 1⟩ := by
  have h := (save_overwrites_in_place ["x"] ⟨["a", "b"], some 1⟩).2 1 rfl
  exact ⟨rfl, h.1, h.2 ["y"]⟩

/-! ### C10: the uninitialized-store guard of main -/

/-- C10: when the loaded store is empty — document absent, undecodable,
or decoded to a store with no addresses — both the `fetch` and the
`solve` command stop at the not-initialized guard, for every possible
response oracle and solve oracle, so no pass runs, no mutation happens
and no remote call is made. -/
theorem uninitialized_guard (doc : PersistedDoc) (responses : List FetchResponse)
    (env : SolveEnv) (h : load_db doc = []) :
    main_fetch doc responses = .rejected ∧ main_solve doc env = .rejected := by
  constructor <;> simp [main_fetch, main_solve, h]

/-- Witness for C10 at the absent document. -/
theorem uninitialized_guard_witness :
    load_db .absent = [] ∧
      main_fetch .absent [] = .rejected ∧ main_solve .absent envPast = .rejected :=
  ⟨rfl, uninitialized_guard .absent [] envPast rfl⟩

theorem mem_sortQueue {r : ChallengeRecord} {q : List ChallengeRecord} :
    r ∈ sortQueue q ↔ r ∈ q :=
  (sortQueue_perm q).mem_iff

theorem mem_ids_sortQueue {x : String} {q : List ChallengeRecord} :
    x ∈ (sortQueue q).map (fun c => c.challengeId) ↔
      x ∈ q.map (fun c => c.challengeId) :=
  ((sortQueue_perm q).map _).mem_iff

theorem any_id_eq_true (q : List ChallengeRecord) (x : String) :
    (q.any fun r => r.challengeId == x) = true ↔ x ∈ q.map fun r => r.challengeId := by
  simp only [List.any_eq_true, beq_iff_eq, List.mem_map]

/-- After merging a parsed receipt for `address`, the address is present
and its queue's ids cover every id of the incoming file's queue. -/
theorem init_one_covers (db : Db) (address rr : String) (q : List ChallengeRecord) :
    ∃ e₁, dbLookup (init_one db (.parsed (some address) rr q)) address = some e₁ ∧
      ∀ c ∈ q, c.challengeId ∈ e₁.challenge_queue.map fun c => c.challengeId := by
  cases hl : dbLookup db address with
  | none =>
    refine ⟨⟨rr, q⟩, ?_, ?_⟩
    · simp only [init_one, hl]
      rw [dbLookup_append_of_none hl, dbLookup_cons]
      simp
    · intro c hc
      exact List.mem_map_of_mem _ hc
  | some entry =>
    simp only [init_one, hl]
    split
    · rename_i hn
      refine ⟨_, dbLookup_update_self (by rw [hl]; rfl) _, ?_⟩
      intro c hc
      rw [mem_ids_sortQueue, List.map_append, List.mem_append]
      by_cases hm : c.challengeId ∈ entry.challenge_queue.map fun c => c.challengeId
      · exact Or.inl hm
      · refine Or.inr (List.mem_map_of_mem _ ?_)
        exact List.mem_filter.mpr ⟨hc, by simp [List.elem_eq_mem, hm]⟩
    · rename_i hn
      refine ⟨entry, hl, ?_⟩
      intro c hc
      by_contra hm
      have hc' : c ∈ q.filter fun c =>
          !((entry.challenge_queue.map fun c => c.challengeId).contains c.challengeId) :=
        List.mem_filter.mpr ⟨hc, by simp [List.elem_eq_mem, hm]⟩
      exact hn (List.length_pos.mpr (List.ne_nil_of_mem hc'))

/-- C6: importing the same receipt file twice in succession yields the
same store as importing it once — the merge deduplicates by
`challengeId`, so the second import appends no record and changes
nothing (for every starting store and every file, including missing,
malformed and address-less ones). -/
theorem init_idempotent (db : Db) (f : ReceiptFile) :
    init_one (init_one db f) f = init_one db f := by
  cases f with
  | missing => rfl
  | malformed => rfl
  | parsed addr rr q =>
    cases addr with
    | none => rfl
    | some address =>
      obtain ⟨e₁, hl, hsup⟩ := init_one_covers db address rr q
      have hfil : (q.filter fun c =>
          !((e₁.challenge_queue.map fun c => c.challengeId).contains c.challengeId)) = [] := by
        rw [List.filter_eq_nil_iff]
        intro c hc
        simp [List.elem_eq_mem, hsup c hc]
      set db₁ := init_one db (ReceiptFile.parsed (some address) rr q) with hdb₁
      simp only [init_one, hl, hfil]
      simp

/-! ### C7, C8: the fetch operation -/

/-- C7: for an address known to the store, a well-shaped response whose
challenge id is already in that address's queue leaves the whole store
unchanged; otherwise exactly one new record — with status `available` —
is appended and the queue re-sorted, and repeating the same fetch on the
result changes nothing further, so fetch may be called repeatedly
without duplicating work. -/
theorem fetch_idempotent_or_append (db : Db) (address : String) (c : ChallengeData)
    (e : AddressEntry) (h : dbLookup db address = some e) :
    (c.challenge_id ∈ e.challenge_queue.map (fun r => r.challengeId) →
      fetch_one db address (.ok c) = .ok db) ∧
    (c.challenge_id ∉ e.challenge_queue.map (fun r => r.challengeId) →
      ∃ q', fetch_one db address (.ok c) =
          .ok (dbUpdate db address ⟨e.registration_receipt, q'⟩) ∧
        List.Perm q' (e.challenge_queue ++ [mkRecord c]) ∧
        List.Sorted recLe q' ∧
        q'.length = e.challenge_queue.length + 1 ∧
        (mkRecord c).status = "available" ∧
        fetch_one (dbUpdate db address ⟨e.registration_receipt, q'⟩) address (.ok c) =
          .ok (dbUpdate db address ⟨e.registration_receipt, q'⟩)) := by
  constructor
  · intro hmem
    have hany : (e.challenge_queue.any fun r => r.challengeId == (mkRecord c).challengeId)
        = true :=
      (any_id_eq_true _ _).mpr hmem
    simp only [fetch_one, h, hany, if_true]
  · intro hmem
    have hany : ¬ (e.challenge_queue.any fun r => r.challengeId == (mkRecord c).challengeId)
        = true :=
      fun hc => hmem ((any_id_eq_true _ _).mp hc)
    refine ⟨sortQueue (e.challenge_queue ++ [mkRecord c]), ?_, sortQueue_perm _,
      sortQueue_sorted _, ?_, rfl, ?_⟩
    · simp only [fetch_one, h]
      rw [if_neg hany]
    · rw [(sortQueue_perm _).length_eq, List.length_append, List.length_singleton]
    · have hl' : dbLookup (dbUpdate db address
          ⟨e.registration_receipt, sortQueue (e.challenge_queue ++ [mkRecord c])⟩) address =
          some ⟨e.registration_receipt, sortQueue (e.challenge_queue ++ [mkRecord c])⟩ :=
        dbLookup_update_self (by rw [h]; rfl) _
      have hmem' : (mkRecord c).challengeId ∈
          (sortQueue (e.challenge_queue ++ [mkRecord c])).map fun r => r.challengeId := by
        rw [mem_ids_sortQueue, List.map_append, List.mem_append]
        exact Or.inr (by simp)
      have hany' : ((sortQueue (e.challenge_queue ++ [mkRecord c])).any
          fun r => r.challengeId == (mkRecord c).challengeId) = true :=
        (any_id_eq_true _ _).mpr hmem'
      simp only [fetch_one, hl', hany', if_true]

/-- Witness for C7 at a concrete store, address and response: the store
knows `addr1` with queue `[c1]` and the response carries the new id
`c2`. -/
theorem fetch_idempotent_or_append_witness :
    dbLookup dbOne "addr1" = some ⟨"rr", [recC1]⟩ ∧
    cd2.challenge_id ∉ ([recC1].map fun r => r.challengeId) ∧
    (∃ q', fetch_one dbOne "addr1" (.ok cd2) =
        .ok (dbUpdate dbOne "addr1" ⟨"rr", q'⟩) ∧
      List.Perm q' ([recC1] ++ [mkRecord cd2]) ∧
      List.Sorted recLe q' ∧
      q'.length = [recC1].length + 1 ∧
      (mkRecord cd2).status = "available" ∧
      fetch_one (dbUpdate dbOne "addr1" ⟨"rr", q'⟩) "addr1" (.ok cd2) =
        .ok (dbUpdate dbOne "addr1" ⟨"rr", q'⟩)) :=
  ⟨by decide, by decide,
    (fetch_idempotent_or_append dbOne "addr1" cd2 ⟨"rr", [recC1]⟩ (by decide)).2 (by decide)⟩

theorem fetch_one_keys {db db' : Db} {a : String} {resp : FetchResponse}
    (h : fetch_one db a resp = .ok db') : dbKeys db' = dbKeys db := by
  cases resp with
  | transportError =>
    simp only [fetch_one] at h
    obtain rfl := Except.ok.inj h
    rfl
  | badShape => simp [fetch_one] at h
  | ok c =>
    cases hl : dbLookup db a with
    | none =>
      simp only [fetch_one, hl] at h
      obtain rfl := Except.ok.inj h
      rfl
    | some entry =>
      simp only [fetch_one, hl] at h
      by_cases hany : (entry.challenge_queue.any
          fun r => r.challengeId == (mkRecord c).challengeId) = true
      · rw [if_pos hany] at h
        obtain rfl := Except.ok.inj h
        rfl
      · rw [if_neg hany] at h
        obtain rfl := Except.ok.inj h
        exact dbKeys_update db a _

theorem fetch_pass_keys : ∀ (items : List (String × FetchResponse)) (db db' : Db),
    fetch_pass db items = .ok db' → dbKeys db' = dbKeys db := by
  intro items
  induction items with
  | nil =>
    intro db db' h
    simp only [fetch_pass] at h
    obtain rfl := Except.ok.inj h
    rfl
  | cons item rest ih =>
    intro db db' h
    obtain ⟨a, resp⟩ := item
    simp only [fetch_pass] at h
    cases hf : fetch_one db a resp with
    | error e =>
      simp only [hf] at h
      exact absurd h (by simp)
    | ok dbm =>
      simp only [hf] at h
      rw [ih dbm db' h, fetch_one_keys hf]

/-- C8: a fetch pass never creates an address: whatever the oracle
returns for each requested address (including addresses absent from the
store), the key set — indeed the exact key list — of the store is
unchanged, whether the pass completes or aborts. -/
theorem fetch_never_creates_addresses (db : Db) (items : List (String × FetchResponse)) :
    dbKeys (fetch_challenges db items) = dbKeys db := by
  simp only [fetch_challenges]
  cases hf : fetch_pass db items with
  | ok d =>
    simp only [hf]
    exact fetch_pass_keys items db d hf
  | error e => simp only [hf]

/-! ### C1: the sort invariant -/

theorem nodup_append_singleton {A : List String} {x : String} (h1 : A.Nodup)
    (h2 : x ∉ A) : (A ++ [x]).Nodup := by
  simp [List.nodup_append, h1, h2]

theorem pairwise_lt_of_sorted_nodup : ∀ {q : List ChallengeRecord},
    List.Sorted recLe q → (q.map fun r => r.challengeId).Nodup → q.Pairwise recLt := by
  intro q
  induction q with
  | nil => intro _ _; exact List.Pairwise.nil
  | cons r q ih =>
    intro hs hn
    rw [List.sorted_cons] at hs
    rw [List.map_cons, List.nodup_cons] at hn
    refine List.Pairwise.cons ?_ (ih hs.2 hn.2)
    intro b hb
    have hne : r.challengeId ≠ b.challengeId :=
      fun hh => hn.1 (hh ▸ List.mem_map_of_mem _ hb)
    exact lt_of_le_of_ne (hs.1 b hb) hne

theorem nodup_ids_of_pairwise_lt {q : List ChallengeRecord} (h : q.Pairwise recLt) :
    (q.map fun r => r.challengeId).Nodup :=
  h.map _ fun _ _ hab => ne_of_lt hab

theorem fetch_one_sortInv {db db' : Db} {a : String} {resp : FetchResponse}
    (hs : sortInv db) (h : fetch_one db a resp = .ok db') : sortInv db' := by
  cases resp with
  | transportError =>
    simp only [fetch_one] at h
    obtain rfl := Except.ok.inj h
    exact hs
  | badShape => simp [fetch_one] at h
  | ok c =>
    cases hl : dbLookup db a with
    | none =>
      simp only [fetch_one, hl] at h
      obtain rfl := Except.ok.inj h
      exact hs
    | some entry =>
      simp only [fetch_one, hl] at h
      by_cases hany : (entry.challenge_queue.any
          fun r => r.challengeId == (mkRecord c).challengeId) = true
      · rw [if_pos hany] at h
        obtain rfl := Except.ok.inj h
        exact hs
      · rw [if_neg hany] at h
        obtain rfl := Except.ok.inj h
        intro a' e' hl'
        by_cases ha : a' = a
        · subst ha
          rw [dbLookup_update_self (by rw [hl]; rfl)] at hl'
          obtain rfl := Option.some.inj hl'
          apply pairwise_lt_of_sorted_nodup (sortQueue_sorted _)
          have hperm := ((sortQueue_perm (entry.challenge_queue ++ [mkRecord c])).map
            fun r => r.challengeId)
          rw [hperm.nodup_iff, List.map_append, List.map_cons, List.map_nil]
          have hnq : (entry.challenge_queue.map fun r => r.challengeId).Nodup :=
            nodup_ids_of_pairwise_lt (hs a' entry hl)
          have hnm : (mkRecord c).challengeId ∉
              entry.challenge_queue.map fun r => r.challengeId :=
            fun hm => hany ((any_id_eq_true _ _).mpr hm)
          exact nodup_append_singleton hnq hnm
        · rw [dbLookup_update_ne _ ha] at hl'
          exact hs a' e' hl'

theorem fetch_pass_sortInv : ∀ (items : List (String × FetchResponse)) (db db' : Db),
    sortInv db → fetch_pass db items = .ok db' → sortInv db' := by
  intro items
  induction items with
  | nil =>
    intro db db' hs h
    simp only [fetch_pass] at h
    obtain rfl := Except.ok.inj h
    exact hs
  | cons item rest ih =>
    intro db db' hs h
    obtain ⟨a, resp⟩ := item
    simp only [fetch_pass] at h
    cases hf : fetch_one db a resp with
    | error e =>
      simp only [hf] at h
      exact absurd h (by simp)
    | ok dbm =>
      simp only [hf] at h
      exact ih dbm db' (fetch_one_sortInv hs hf) h

/-- C1 counterexample: importing a receipt file whose queue lists `c2`
before `c1` into an empty store creates the new address entry verbatim
(`main.py` lines 44-48 copy the file's queue without sorting or
deduplicating), so after the import that address's queue is not sorted
ascending by `challengeId` — refuting the claim for the brand-new
address case it explicitly includes. -/
theorem import_unsorted_counterexample :
    dbLookup (init_one [] (.parsed (some "addr1") "rr" [recC2, recC1])) "addr1" =
      some ⟨"rr", [recC2, recC1]⟩ ∧
    ¬ sortInv (init_one [] (.parsed (some "addr1") "rr" [recC2, recC1])) := by
  constructor
  · decide
  · intro hs
    have h := hs "addr1" ⟨"rr", [recC2, recC1]⟩ (by decide)
    have h2 := (List.pairwise_cons.mp h).1 recC1 (by simp)
    have h3 : ¬ recLt recC2 recC1 := by
      show ¬ ("c2" < "c1")
      rw [String.lt_iff_toList_lt]
      decide
    exact absurd h2 h3

/-- C1 amended: the fetch operation preserves the sort invariant — on a
store where every address's queue is sorted ascending by `challengeId`
with no duplicate ids, any fetch pass (any addresses, any responses,
completing or aborting) leaves every queue sorted and duplicate-free.
Import does not establish the invariant: a brand-new address entry
copies the input file's queue verbatim. -/
theorem fetch_preserves_sort_invariant (db : Db) (items : List (String × FetchResponse))
    (h : sortInv db) : sortInv (fetch_challenges db items) := by
  simp only [fetch_challenges]
  cases hf : fetch_pass db items with
  | ok d =>
    simp only [hf]
    exact fetch_pass_sortInv items db d h hf
  | error e =>
    simp only [hf]
    exact h

/-- Witness for the amended C1: a sorted one-record store stays sorted
through a fetch that appends `c2`. -/
theorem fetch_preserves_sort_invariant_witness :
    sortInv dbOne ∧ sortInv (fetch_challenges dbOne [("addr1", .ok cd2)]) := by
  have h0 : sortInv dbOne := by
    intro a e he
    simp only [dbOne] at he
    rw [dbLookup_cons] at he
    by_cases hb : ("addr1" == a)
    · rw [if_pos hb] at he
      obtain rfl := Option.some.inj he
      exact List.pairwise_singleton recLt recC1
    · rw [if_neg hb] at he
      exact absurd he (by simp [dbLookup])
  exact ⟨h0, fetch_preserves_sort_invariant dbOne [("addr1", .ok cd2)] h0⟩

/-! ### C5: failure isolation in the solve pass -/

/-- C5 counterexample: the store's first record carries a
`latestSubmission` the parser rejects, so the pass raises out of
`solve_challenges` before its final `save_db`: the persisted store is
completely unchanged and the second record — whose deadline has passed —
is never processed (it stays `available` instead of turning `expired`),
refuting both the "processing continues" and the "store still saved"
parts of the claim. -/
theorem malformed_deadline_aborts_counterexample :
    recBadTs.status = "available" ∧
    recBadTs.latestSubmission = some "garbage" ∧
    envMixedParse.parseTs "garbage" = none ∧
    solve_pass envMixedParse dbBadTs = .error () ∧
    solve_challenges envMixedParse dbBadTs = dbBadTs ∧
    envMixedParse.parseTs "t1" = some 10 ∧ envMixedParse.now > 10 ∧
    (dbLookup (solve_challenges envMixedParse dbBadTs) "addr1").map
        (fun e => e.challenge_queue.map fun r => r.status) =
      some ["available", "available"] := by
  decide

theorem solve_record_ok_of_parseable (env : SolveEnv) (a : String) (r : ChallengeRecord)
    (h : r.status = "available" → ∃ s, r.latestSubmission = some s ∧ (env.parseTs s).isSome) :
    ∃ rl, solve_record env a r = .ok rl := by
  by_cases hs : (r.status == "available") = true
  · obtain ⟨s, hts, hps⟩ := h (by simpa using hs)
    obtain ⟨t, hpt⟩ := Option.isSome_iff_exists.mp hps
    by_cases hn : env.now > t
    · exact ⟨({ r with status := "expired" }, ⟨false, false⟩),
        by simp [solve_record, hs, hts, hpt, hn]⟩
    · cases hsol : env.solver a r with
      | failed =>
        exact ⟨(r, ⟨true, false⟩), by simp [solve_record, hs, hts, hpt, hn, hsol]⟩
      | success nonce =>
        cases hsub : env.submit a r.challengeId nonce with
        | transportFailure =>
          exact ⟨(r, ⟨true, true⟩), by simp [solve_record, hs, hts, hpt, hn, hsol, hsub]⟩
        | accepted hh =>
          cases hh with
          | some v =>
            exact ⟨({ r with
                status := "solved"
                solvedAt := some env.nowStr
                salt := some nonce
                hash := some v }, ⟨true, true⟩),
              by simp [solve_record, hs, hts, hpt, hn, hsol, hsub]⟩
          | none =>
            exact ⟨({ r with
                status := "solved"
                solvedAt := some env.nowStr
                salt := some nonce }, ⟨true, true⟩),
              by simp [solve_record, hs, hts, hpt, hn, hsol, hsub]⟩
  · exact ⟨(r, ⟨false, false⟩), by simp [solve_record, hs]⟩

theorem exMapM_ok_forall₂ {α β : Type} {f : α → Except Unit β} {R : α → β → Prop} :
    ∀ {l : List α}, (∀ x ∈ l, ∃ y, f x = .ok y ∧ R x y) →
      ∃ l', exMapM f l = .ok l' ∧ List.Forall₂ R l l' := by
  intro l
  induction l with
  | nil => exact fun _ => ⟨[], rfl, List.Forall₂.nil⟩
  | cons x xs ih =>
    intro h
    obtain ⟨y, hy, hR⟩ := h x (List.mem_cons_self x xs)
    obtain ⟨l', hl', hf⟩ := ih fun z hz => h z (List.mem_cons_of_mem x hz)
    exact ⟨y :: l', by simp [exMapM, hy, hl'], List.Forall₂.cons hR hf⟩

theorem exMapM_ok_inv {α β : Type} {f : α → Except Unit β} :
    ∀ {l : List α} {l' : List β}, exMapM f l = .ok l' →
      List.Forall₂ (fun x y => f x = .ok y) l l' := by
  intro l
  induction l with
  | nil =>
    intro l' h
    simp only [exMapM] at h
    obtain rfl := Except.ok.inj h
    exact List.Forall₂.nil
  | cons x xs ih =>
    intro l' h
    simp only [exMapM] at h
    cases hx : f x with
    | error e =>
      simp only [hx] at h
      exact absurd h (by simp)
    | ok y =>
      simp only [hx] at h
      cases hxs : exMapM f xs with
      | error e =>
        simp only [hxs] at h
        exact absurd h (by simp)
      | ok ys =>
        simp only [hxs] at h
        obtain rfl := Except.ok.inj h
        exact List.Forall₂.cons hx (ih hxs)

theorem solve_entry_ok_of_parseable {env : SolveEnv} {p : String × AddressEntry}
    (h : ∀ r ∈ p.2.challenge_queue, r.status = "available" →
      ∃ s, r.latestSubmission = some s ∧ (env.parseTs s).isSome) :
    ∃ e', solve_entry env p = .ok (p.1, e') ∧
      e'.challenge_queue.length = p.2.challenge_queue.length := by
  have hall : ∀ r ∈ p.2.challenge_queue, ∃ y, solveRecOnly env p.1 r = .ok y ∧ True := by
    intro r hr
    obtain ⟨rl, hrl⟩ := solve_record_ok_of_parseable env p.1 r (h r hr)
    exact ⟨rl.1, by simp [solveRecOnly, hrl], trivial⟩
  obtain ⟨q', hq', hf⟩ := exMapM_ok_forall₂ hall
  exact ⟨⟨p.2.registration_receipt, q'⟩, by simp [solve_entry, hq'], hf.length_eq.symm⟩

theorem dbKeys_of_forall₂ {R : (String × AddressEntry) → (String × AddressEntry) → Prop}
    (hR : ∀ p q, R p q → p.1 = q.1) :
    ∀ {db db' : Db}, List.Forall₂ R db db' → dbKeys db' = dbKeys db := by
  intro db db' hf
  induction hf with
  | nil => rfl
  | @cons p q l l' hpq hrest ih =>
    simp only [dbKeys, List.map_cons]
    rw [← hR p q hpq]
    simp only [dbKeys] at ih
    rw [ih]

/-- C5 amended: failures of the external solver, of the submission
call and of response decoding are caught per record and never stop the
pass — whenever every available record's `latestSubmission` parses, the
pass completes for every oracle (so the terminal `save_db` runs),
visiting every address (same key list) and every record of every queue
(same queue lengths).  But an available record with a malformed or
missing `latestSubmission` raises outside the per-record handler and
aborts the pass unsaved. -/
theorem solve_pass_completes_of_parseable (env : SolveEnv) (db : Db)
    (h : tsParseable env db) :
    ∃ db', solve_pass env db = .ok db' ∧ solve_challenges env db = db' ∧
      dbKeys db' = dbKeys db ∧
      List.Forall₂ (fun (p q : String × AddressEntry) =>
        p.1 = q.1 ∧ q.2.challenge_queue.length = p.2.challenge_queue.length) db db' := by
  have hall : ∀ p ∈ db, ∃ q, solve_entry env p = .ok q ∧
      (p.1 = q.1 ∧ q.2.challenge_queue.length = p.2.challenge_queue.length) := by
    intro p hp
    obtain ⟨e', he', hlen⟩ := solve_entry_ok_of_parseable (h p hp)
    exact ⟨(p.1, e'), he', rfl, hlen⟩
  obtain ⟨db', hdb', hf⟩ := exMapM_ok_forall₂ hall
  have hkeys := dbKeys_of_forall₂ (fun p q hpq => hpq.1) hf
  exact ⟨db', hdb', by simp [solve_challenges, solve_pass] at hdb' ⊢; rw [hdb'], hkeys, hf⟩

/-- Witness for the amended C5: a two-record store under an oracle
whose solver succeeds but whose submissions all fail still completes
its pass with both records visited. -/
theorem solve_pass_completes_witness :
    tsParseable envSubmitFail dbTwoRecs ∧
      ∃ db', solve_pass envSubmitFail dbTwoRecs = .ok db' ∧
        solve_challenges envSubmitFail dbTwoRecs = db' ∧
        dbKeys db' = dbKeys dbTwoRecs ∧
        List.Forall₂ (fun (p q : String × AddressEntry) =>
          p.1 = q.1 ∧ q.2.challenge_queue.length = p.2.challenge_queue.length)
          dbTwoRecs db' := by
  have h : tsParseable envSubmitFail dbTwoRecs := by
    intro p hp r hr hav
    simp only [dbTwoRecs, List.mem_singleton] at hp
    subst hp
    simp only [AddressEntry.challenge_queue] at hr
    rcases List.mem_cons.mp hr with rfl | hr2
    · exact ⟨"t1", rfl, rfl⟩
    · rcases List.mem_singleton.mp hr2 with rfl
      exact ⟨"t1", rfl, rfl⟩
  exact ⟨h, solve_pass_completes_of_parseable envSubmitFail dbTwoRecs h⟩

/-! ### C9: forward-only status across operation sequences -/

theorem statusForward_refl (db : Db) : statusForward db db :=
  fun _ e he => ⟨e, he, fun _ hr => Or.inl hr⟩

theorem statusForward_trans {d1 d2 d3 : Db} (h12 : statusForward d1 d2)
    (h23 : statusForward d2 d3) : statusForward d1 d3 := by
  intro a e he
  obtain ⟨e2, hl2, hr2⟩ := h12 a e he
  obtain ⟨e3, hl3, hr3⟩ := h23 a e2 hl2
  refine ⟨e3, hl3, ?_⟩
  intro r hr
  rcases hr2 r hr with hmem2 | ⟨hav, r2, hmem2, hid2, hst2⟩
  · rcases hr3 r hmem2 with hmem3 | ⟨hav3, r3, hmem3, hid3, hst3⟩
    · exact Or.inl hmem3
    · exact Or.inr ⟨hav3, r3, hmem3, hid3, hst3⟩
  · rcases hr3 r2 hmem2 with hmem3 | ⟨hav3, r3, hmem3, hid3, hst3⟩
    · exact Or.inr ⟨hav, r2, hmem3, hid2, hst2⟩
    · rcases hst2 with h2 | h2
      · exact absurd (hav3.symm.trans h2) (by decide)
      · exact absurd (hav3.symm.trans h2) (by decide)

theorem statusForward_of_memPreserved {db db' : Db}
    (h : ∀ a e, dbLookup db a = some e → ∃ e', dbLookup db' a = some e' ∧
      ∀ r ∈ e.challenge_queue, r ∈ e'.challenge_queue) :
    statusForward db db' := by
  intro a e he
  obtain ⟨e', he', hsub⟩ := h a e he
  exact ⟨e', he', fun r hr => Or.inl (hsub r hr)⟩

theorem init_one_memPreserved (db : Db) (f : ReceiptFile) :
    ∀ a e, dbLookup db a = some e → ∃ e', dbLookup (init_one db f) a = some e' ∧
      ∀ r ∈ e.challenge_queue, r ∈ e'.challenge_queue := by
  intro a e he
  cases f with
  | missing => exact ⟨e, he, fun _ hr => hr⟩
  | malformed => exact ⟨e, he, fun _ hr => hr⟩
  | parsed addr rr q =>
    cases addr with
    | none => exact ⟨e, he, fun _ hr => hr⟩
    | some address =>
      by_cases ha : a = address
      · subst ha
        simp only [init_one, he]
        split
        · refine ⟨_, dbLookup_update_self (by rw [he]; rfl) _, ?_⟩
          intro r hr
          exact mem_sortQueue.mpr (List.mem_append_left _ hr)
        · exact ⟨e, he, fun _ hr => hr⟩
      · cases hl : dbLookup db address with
        | none =>
          simp only [init_one, hl]
          exact ⟨e, dbLookup_append_of_some he _, fun _ hr => hr⟩
        | some entry =>
          simp only [init_one, hl]
          split
          · refine ⟨e, ?_, fun _ hr => hr⟩
            rw [dbLookup_update_ne _ ha]
            exact he
          · exact ⟨e, he, fun _ hr => hr⟩

theorem fetch_one_memPreserved {db db' : Db} {a0 : String} {resp : FetchResponse}
    (hstep : fetch_one db a0 resp = .ok db') :
    ∀ a e, dbLookup db a = some e → ∃ e', dbLookup db' a = some e' ∧
      ∀ r ∈ e.challenge_queue, r ∈ e'.challenge_queue := by
  intro a e he
  cases resp with
  | transportError =>
    simp only [fetch_one] at hstep
    obtain rfl := Except.ok.inj hstep
    exact ⟨e, he, fun _ hr => hr⟩
  | badShape => simp [fetch_one] at hstep
  | ok c =>
    cases hl : dbLookup db a0 with
    | none =>
      simp only [fetch_one, hl] at hstep
      obtain rfl := Except.ok.inj hstep
      exact ⟨e, he, fun _ hr => hr⟩
    | some entry =>
      simp only [fetch_one, hl] at hstep
      by_cases hany : (entry.challenge_queue.any
          fun r => r.challengeId == (mkRecord c).challengeId) = true
      · rw [if_pos hany] at hstep
        obtain rfl := Except.ok.inj hstep
        exact ⟨e, he, fun _ hr => hr⟩
      · rw [if_neg hany] at hstep
        obtain rfl := Except.ok.inj hstep
        by_cases haa : a = a0
        · subst haa
          obtain rfl := Option.some.inj (he.symm.trans hl)
          refine ⟨_, dbLookup_update_self (by rw [hl]; rfl) _, ?_⟩
          intro r hr
          exact mem_sortQueue.mpr (List.mem_append_left _ hr)
        · refine ⟨e, ?_, fun _ hr => hr⟩
          rw [dbLookup_update_ne _ haa]
          exact he

theorem fetch_pass_statusForward : ∀ (items : List (String × FetchResponse)) (db db' : Db),
    fetch_pass db items = .ok db' → statusForward db db' := by
  intro items
  induction items with
  | nil =>
    intro db db' h
    simp only [fetch_pass] at h
    obtain rfl := Except.ok.inj h
    exact statusForward_refl db
  | cons item rest ih =>
    intro db db' h
    obtain ⟨a, resp⟩ := item
    simp only [fetch_pass] at h
    cases hf : fetch_one db a resp with
    | error e =>
      simp only [hf] at h
      exact absurd h (by simp)
    | ok dbm =>
      simp only [hf] at h
      exact statusForward_trans
        (statusForward_of_memPreserved (fetch_one_memPreserved hf)) (ih dbm db' h)

theorem solveRecOnly_step {env : SolveEnv} {a : String} {r r' : ChallengeRecord}
    (h : solveRecOnly env a r = .ok r') :
    r' = r ∨ (r.status = "available" ∧ r'.challengeId = r.challengeId ∧
      (r'.status = "expired" ∨ r'.status = "solved")) := by
  by_cases hs : (r.status == "available") = true
  · cases hts : r.latestSubmission with
    | none => simp [solveRecOnly, solve_record, hs, hts] at h
    | some s =>
      cases hpt : env.parseTs s with
      | none => simp [solveRecOnly, solve_record, hs, hts, hpt] at h
      | some t =>
        by_cases hn : env.now > t
        · have hval : solveRecOnly env a r = .ok ({ r with status := "expired" }) := by
            simp [solveRecOnly, solve_record, hs, hts, hpt, hn]
          rw [hval] at h
          obtain rfl := Except.ok.inj h
          exact Or.inr ⟨by simpa using hs, rfl, Or.inl rfl⟩
        · cases hsol : env.solver a r with
          | failed =>
            have hval : solveRecOnly env a r = .ok r := by
              simp [solveRecOnly, solve_record, hs, hts, hpt, hn, hsol]
            rw [hval] at h
            obtain rfl := Except.ok.inj h
            exact Or.inl rfl
          | success nonce =>
            cases hsub : env.submit a r.challengeId nonce with
            | transportFailure =>
              have hval : solveRecOnly env a r = .ok r := by
                simp [solveRecOnly, solve_record, hs, hts, hpt, hn, hsol, hsub]
              rw [hval] at h
              obtain rfl := Except.ok.inj h
              exact Or.inl rfl
            | accepted hh =>
              cases hh with
              | some v =>
                have hval : solveRecOnly env a r = .ok ({ r with
                    status := "solved"
                    solvedAt := some env.nowStr
                    salt := some nonce
                    hash := some v }) := by
                  simp [solveRecOnly, solve_record, hs, hts, hpt, hn, hsol, hsub]
                rw [hval] at h
                obtain rfl := Except.ok.inj h
                exact Or.inr ⟨by simpa using hs, rfl, Or.inr rfl⟩
              | none =>
                have hval : solveRecOnly env a r = .ok ({ r with
                    status := "solved"
                    solvedAt := some env.nowStr
                    salt := some nonce }) := by
                  simp [solveRecOnly, solve_record, hs, hts, hpt, hn, hsol, hsub]
                rw [hval] at h
                obtain rfl := Except.ok.inj h
                exact Or.inr ⟨by simpa using hs, rfl, Or.inr rfl⟩
  · have hval : solveRecOnly env a r = .ok r := by
      simp [solveRecOnly, solve_record, hs]
    rw [hval] at h
    obtain rfl := Except.ok.inj h
    exact Or.inl rfl

theorem solve_entry_inv {env : SolveEnv} {p q : String × AddressEntry}
    (h : solve_entry env p = .ok q) :
    q.1 = p.1 ∧ List.Forall₂ (fun r r' => solveRecOnly env p.1 r = .ok r')
      p.2.challenge_queue q.2.challenge_queue := by
  simp only [solve_entry] at h
  cases hm : exMapM (solveRecOnly env p.1) p.2.challenge_queue with
  | error e =>
    simp only [hm] at h
    exact absurd h (by simp)
  | ok q' =>
    simp only [hm] at h
    obtain rfl := Except.ok.inj h
    exact ⟨rfl, exMapM_ok_inv hm⟩

theorem forall₂_mem {α β : Type} {S : α → β → Prop} : ∀ {l : List α} {l' : List β},
    List.Forall₂ S l l' → ∀ x ∈ l, ∃ y ∈ l', S x y := by
  intro l l' h
  induction h with
  | nil => intro x hx; exact absurd hx (List.not_mem_nil x)
  | @cons a b l l' hab hrest ih =>
    intro x hx
    rcases List.mem_cons.mp hx with rfl | hx2
    · exact ⟨b, List.mem_cons_self b l', hab⟩
    · obtain ⟨y, hy, hS⟩ := ih x hx2
      exact ⟨y, List.mem_cons_of_mem b hy, hS⟩

theorem dbLookup_forall₂ {R : (String × AddressEntry) → (String × AddressEntry) → Prop}
    (hR : ∀ p q, R p q → p.1 = q.1) :
    ∀ {db db' : Db}, List.Forall₂ R db db' → ∀ {a : String} {e : AddressEntry},
      dbLookup db a = some e → ∃ e', dbLookup db' a = some e' ∧ R (a, e) (a, e') := by
  intro db db' hf
  induction hf with
  | nil =>
    intro a e he
    simp [dbLookup] at he
  | @cons p q l l' hpq hrest ih =>
    intro a e he
    obtain ⟨pb, pe⟩ := p
    obtain ⟨qb, qe⟩ := q
    have hfst : pb = qb := hR _ _ hpq
    rw [dbLookup_cons] at he
    by_cases hb : (pb == a) = true
    · rw [if_pos hb] at he
      obtain rfl := Option.some.inj he
      have hba : pb = a := by simpa using hb
      subst hba
      refine ⟨qe, ?_, ?_⟩
      · rw [dbLookup_cons, if_pos (by simp [← hfst])]
      · rw [← hfst] at hpq
        exact hpq
    · rw [if_neg hb] at he
      obtain ⟨e', he', hrel⟩ := ih he
      refine ⟨e', ?_, hrel⟩
      rw [dbLookup_cons, if_neg ?_]
      · exact he'
      · rw [← hfst]
        exact hb

theorem solve_pass_statusForward {env : SolveEnv} {db db' : Db}
    (h : solve_pass env db = .ok db') : statusForward db db' := by
  have hf := exMapM_ok_inv h
  have hf2 : List.Forall₂ (fun (p q : String × AddressEntry) => p.1 = q.1 ∧
      List.Forall₂ (fun r r' => solveRecOnly env p.1 r = .ok r')
        p.2.challenge_queue q.2.challenge_queue) db db' := by
    refine hf.imp ?_
    intro p q hpq
    obtain ⟨h1, h2⟩ := solve_entry_inv hpq
    exact ⟨h1.symm, h2⟩
  intro a e he
  obtain ⟨e', he', hrel⟩ := dbLookup_forall₂ (fun p q hpq => hpq.1) hf2 he
  refine ⟨e', he', ?_⟩
  intro r hr
  obtain ⟨y, hy, hS⟩ := forall₂_mem hrel.2 r hr
  rcases solveRecOnly_step hS with rfl | ⟨hav, hid, hst⟩
  · exact Or.inl hy
  · exact Or.inr ⟨hav, y, hy, hid, hst⟩

theorem applyOp_statusForward (db : Db) (op : Op) : statusForward db (applyOp db op) := by
  cases op with
  | initOp f => exact statusForward_of_memPreserved (init_one_memPreserved db f)
  | fetchOp items =>
    simp only [applyOp, fetch_challenges]
    cases hf : fetch_pass db items with
    | ok d =>
      simp only [hf]
      exact fetch_pass_statusForward items db d hf
    | error e =>
      simp only [hf]
      exact statusForward_refl db
  | solveOp env =>
    simp only [applyOp, solve_challenges]
    cases hs : solve_pass env db with
    | ok d =>
      simp only [hs]
      exact solve_pass_statusForward hs
    | error e =>
      simp only [hs]
      exact statusForward_refl db

/-- C9: across every sequence of import, fetch and solve operations, a
record's status only moves forward: every record present in the store
beforehand is either still present verbatim afterwards, or it was
`available` and a record with its `challengeId` at its address is now
`expired` or `solved`.  In particular no operation changes a `solved`,
`expired` (or any non-`available`) record, and no record re-enters
`available`. -/
theorem status_forward_only (db : Db) (ops : List Op) :
    statusForward db (ops.foldl applyOp db) := by
  induction ops generalizing db with
  | nil => exact statusForward_refl db
  | cons op ops ih =>
    exact statusForward_trans (applyOp_statusForward db op) (ih (applyOp db op))
